import Mathlib

/-!
Verification of the say2 core trace engine (TypeScript sources under
`packages/core/src`): session registry, message event store, and the
interception pipeline.  JavaScript runtime values are embedded shallowly:
`Date` becomes an `Int` of milliseconds, `string | number` request ids
become a sum type, a JS `Map` becomes an insertion-ordered association
list with JS `Map` semantics, and nondeterministic inputs
(`crypto.randomUUID()`, `new Date()`, `Symbol(...)`) become explicit
parameters.
-/

namespace Say2

/-- JS `string | number` as used for JSON-RPC ids. -/
inductive RId where
  | str (s : String)
  | num (n : Int)
deriving DecidableEq, Repr

/-- How a JS value of type `string | number` renders inside a template
string such as `` `${sessionId}:${requestId}` ``. -/
def RId.render : RId → String
  | .str s => s
  | .num n => toString n

/-- The `Direction` enum from `types`: `"inbound" | "outbound"`. -/
inductive Direction where
  | inbound
  | outbound
deriving DecidableEq, Repr

/-- The `SessionState` enum from `types`. -/
inductive SessionState where
  | CREATED
  | INITIALIZING
  | ACTIVE
  | CLOSED
  | ERROR
deriving DecidableEq, Repr

/-- The `TransportType` enum from `types`: `"stdio" | "http"`. -/
inductive TransportType where
  | stdio
  | http
deriving DecidableEq, Repr

/-- Generic JSON values, used for the opaque `params` / `result` / `data` /
capability payload positions (`z.unknown()` / `z.record(...)`). -/
inductive Json where
  | null
  | bool (b : Bool)
  | num (n : Int)
  | str (s : String)
  | arr (elems : List Json)
  | obj (fields : List (String × Json))

/-- The `error` object of a JSON-RPC response. -/
structure RpcError where
  code : Int
  message : String
  data : Option Json := none

/-- Source: `JsonRpcMessage`: discriminated union of request, response and
notification, mirroring `JsonRpcMessageSchema` in `types`. -/
inductive JsonRpcMessage where
  | request (id : RId) (method : String) (params : Option Json)
  | response (id : Option RId) (result : Option Json) (error : Option RpcError)
  | notify (method : String) (params : Option Json)

/-- JS `"method" in payload ? payload.method : undefined`. -/
def JsonRpcMessage.methodField : JsonRpcMessage → Option String
  | .request _ method _ => some method
  | .response _ _ _ => none
  | .notify method _ => some method

/-- JS `("id" in payload && payload.id !== null) ? payload.id : undefined`. -/
def JsonRpcMessage.idField : JsonRpcMessage → Option RId
  | .request id _ _ => some id
  | .response (some id) _ _ => some id
  | .response none _ _ => none
  | .notify _ _ => none

/-- JS `"error" in payload` for a payload built from the schema shapes:
true exactly for a response carrying an `error` member. -/
def JsonRpcMessage.hasErrorField : JsonRpcMessage → Bool
  | .response _ _ (some _) => true
  | _ => false

/-- Source: `MessageEvent` from `types`.  The store performs no validation, so the
derived fields are whatever the producer put there. -/
structure MessageEvent where
  id : String
  sessionId : String
  timestamp : Int
  direction : Direction
  protocol : String := "mcp"
  payload : JsonRpcMessage
  method : Option String := none
  requestId : Option RId := none
  size : Option Nat := none

/-- Source: `MessageFilter` from `types`; every field optional. -/
structure MessageFilter where
  sessionId : Option String := none
  direction : Option Direction := none
  method : Option String := none
  hasError : Option Bool := none
  startTime : Option Int := none
  endTime : Option Int := none

/-- Source: `RequestResponsePair` from `types`. -/
structure RequestResponsePair where
  request : MessageEvent
  response : Option MessageEvent
  latencyMs : Option Int

/-- Capability maps `Record<string, unknown>`. -/
abbrev Caps := List (String × Json)

/-- Source: `ServerConfig` from `types` (the zod schema's parsed shape). -/
structure ServerConfig where
  name : String
  transport : TransportType
  command : Option String := none
  args : Option (List String) := none
  env : Option (List (String × String)) := none
  url : Option String := none

/-- Source: `Session` from `types`. -/
structure Session where
  id : String
  state : SessionState
  createdAt : Int
  updatedAt : Int
  config : ServerConfig
  protocol : String := "mcp"
  protocolVersion : Option String := none
  clientCapabilities : Option Caps := none
  serverCapabilities : Option Caps := none

/-- A JS `Map`: an insertion-ordered association list.  `set` on an
existing key replaces the value in place; on a fresh key it appends. -/
structure JsMap (α β : Type) where
  entries : List (α × β)

namespace JsMap

variable {α β : Type} [DecidableEq α]

/-- Source: `new Map()`. -/
def empty : JsMap α β := ⟨[]⟩

/-- Source: `map.get(k)` (`undefined` becomes `none`). -/
def get (m : JsMap α β) (k : α) : Option β :=
  (m.entries.find? (fun p => decide (p.1 = k))).map Prod.snd

/-- Source: `map.set(k, v)`. -/
def set (m : JsMap α β) (k : α) (v : β) : JsMap α β :=
  if m.entries.any (fun p => decide (p.1 = k)) then
    ⟨m.entries.map (fun p => if p.1 = k then (k, v) else p)⟩
  else
    ⟨m.entries ++ [(k, v)]⟩

/-- Source: `map.delete(k)` (the removal effect; the returned Bool is separate). -/
def delete (m : JsMap α β) (k : α) : JsMap α β :=
  ⟨m.entries.filter (fun p => !(decide (p.1 = k)))⟩

/-- Source: `map.has(k)`. -/
def has (m : JsMap α β) (k : α) : Bool :=
  m.entries.any (fun p => decide (p.1 = k))

/-- Source: `Array.from(map.values())`. -/
def values (m : JsMap α β) : List β := m.entries.map Prod.snd

/-- Source: `map.size`. -/
def size (m : JsMap α β) : Nat := m.entries.length

theorem get_empty (k : α) : (empty : JsMap α β).get k = none := rfl

theorem get_eq_none_iff (m : JsMap α β) (k : α) :
    m.get k = none ↔ ∀ p ∈ m.entries, p.1 ≠ k := by
  unfold get
  rw [Option.map_eq_none', List.find?_eq_none]
  simp only [decide_eq_true_eq]

theorem any_eq_false_of_get_eq_none (m : JsMap α β) (k : α)
    (h : m.get k = none) : m.entries.any (fun p => decide (p.1 = k)) = false := by
  rw [get_eq_none_iff] at h
  simp only [List.any_eq_false, decide_eq_true_eq]
  exact h

theorem find?_map_replace (ps : List (α × β)) (k k' : α) (v : β) (hne : k' ≠ k) :
    (ps.map (fun p => if p.1 = k then (k, v) else p)).find?
        (fun p => decide (p.1 = k')) =
      ps.find? (fun p => decide (p.1 = k')) := by
  induction ps with
  | nil => rfl
  | cons p ps ih =>
    by_cases hpk : p.1 = k
    · simp only [List.map_cons, hpk, if_true]
      rw [List.find?_cons_of_neg _ (by simpa using Ne.symm hne),
        List.find?_cons_of_neg _ (by simp [hpk]; exact fun h => hne h.symm)]
      exact ih
    · simp only [List.map_cons, hpk, if_false]
      by_cases hpk' : p.1 = k'
      · rw [List.find?_cons_of_pos _ (by simpa using hpk'),
          List.find?_cons_of_pos _ (by simpa using hpk')]
      · rw [List.find?_cons_of_neg _ (by simpa using hpk'),
          List.find?_cons_of_neg _ (by simpa using hpk')]
        exact ih

theorem find?_map_replace_self (ps : List (α × β)) (k : α) (v : β)
    (h : ps.any (fun p => decide (p.1 = k))) :
    (ps.map (fun p => if p.1 = k then (k, v) else p)).find?
        (fun p => decide (p.1 = k)) = some (k, v) := by
  induction ps with
  | nil => simp at h
  | cons p ps ih =>
    by_cases hpk : p.1 = k
    · simp only [List.map_cons, hpk, if_true]
      rw [List.find?_cons_of_pos _ (by simp)]
    · simp only [List.any_cons, Bool.or_eq_true, decide_eq_true_eq] at h
      rcases h with h | h
      · exact absurd h hpk
      · simp only [List.map_cons, hpk, if_false]
        rw [List.find?_cons_of_neg _ (by simpa using hpk)]
        exact ih (by simpa using h)

theorem get_set (m : JsMap α β) (k k' : α) (v : β) :
    (m.set k v).get k' = if k' = k then some v else m.get k' := by
  unfold set get
  by_cases hk : m.entries.any (fun p => decide (p.1 = k))
  · rw [if_pos hk]
    by_cases hkk : k' = k
    · subst hkk
      rw [if_pos rfl, find?_map_replace_self _ _ _ hk]
      rfl
    · rw [if_neg hkk, find?_map_replace _ _ _ _ hkk]
  · rw [if_neg hk]
    by_cases hkk : k' = k
    · subst hkk
      have hnone : m.entries.find? (fun p => decide (p.1 = k')) = none := by
        rw [List.find?_eq_none]
        intro p hp
        simp only [List.any_eq_true, decide_eq_true_eq] at hk
        simp only [decide_eq_true_eq]
        exact fun hc => hk ⟨p, hp, hc⟩
      rw [if_pos rfl, List.find?_append, hnone]
      simp
    · rw [if_neg hkk, List.find?_append]
      have hsing : ([(k, v)].find? (fun p => decide (p.1 = k'))) = none := by
        simp [List.find?_singleton, Ne.symm hkk]
      rw [hsing]
      cases m.entries.find? (fun p => decide (p.1 = k')) <;> rfl

theorem get_delete (m : JsMap α β) (k k' : α) :
    (m.delete k).get k' = if k' = k then none else m.get k' := by
  unfold delete get
  by_cases hkk : k' = k
  · subst hkk
    rw [if_pos rfl]
    have hnone : (m.entries.filter (fun p => !(decide (p.1 = k')))).find?
        (fun p => decide (p.1 = k')) = none := by
      rw [List.find?_eq_none]
      intro p hp
      have := List.of_mem_filter hp
      simpa using this
    rw [hnone]
    rfl
  · rw [if_neg hkk]
    induction m.entries with
    | nil => rfl
    | cons p ps ih =>
      by_cases hpk : p.1 = k
      · have hpk' : ¬ p.1 = k' := fun h => hkk (h ▸ hpk ▸ rfl)
        rw [List.filter_cons_of_neg (by simpa using hpk),
          List.find?_cons_of_neg _ (by simpa using hpk')]
        exact ih
      · rw [List.filter_cons_of_pos (by simpa using hpk)]
        by_cases hpk' : p.1 = k'
        · rw [List.find?_cons_of_pos _ (by simpa using hpk'),
            List.find?_cons_of_pos _ (by simpa using hpk')]
        · rw [List.find?_cons_of_neg _ (by simpa using hpk'),
            List.find?_cons_of_neg _ (by simpa using hpk')]
          exact ih

end JsMap

/-! ## Message store (`packages/core/src/store/message-store.ts`) -/

/-- The `MessageStore` state: `messages` maps a session id to that
session's ordered event log, `byRequestId` is the secondary index. -/
structure MessageStore where
  messages : JsMap String (List MessageEvent)
  byRequestId : JsMap String MessageEvent

namespace MessageStore

/-- Source: `new MessageStore()`. -/
def empty : MessageStore := ⟨JsMap.empty, JsMap.empty⟩

/-- Source: `` makeRequestKey: `${sessionId}:${requestId}` ``. -/
def makeRequestKey (sessionId : String) (requestId : RId) : String :=
  sessionId ++ ":" ++ requestId.render

/-- Source: `MessageStore.store`. -/
def store (st : MessageStore) (event : MessageEvent) : MessageStore :=
  let sessionMessages := (st.messages.get event.sessionId).getD []
  let messages := st.messages.set event.sessionId (sessionMessages ++ [event])
  match event.requestId with
  | some rid =>
    ⟨messages, st.byRequestId.set (makeRequestKey event.sessionId rid) event⟩
  | none => ⟨messages, st.byRequestId⟩

/-- Source: `MessageStore.getBySession`. -/
def getBySession (st : MessageStore) (sessionId : String) : List MessageEvent :=
  (st.messages.get sessionId).getD []

/-- Source: `MessageStore.getByRequestId`. -/
def getByRequestId (st : MessageStore) (sessionId : String) (requestId : RId) :
    Option MessageEvent :=
  st.byRequestId.get (makeRequestKey sessionId requestId)

/-- The initial `results` of `query`: `if (filter.sessionId)` — JS
truthiness, so an empty string behaves like an absent field — selects the
session's log, else all sessions' logs are flattened. -/
def queryBase (st : MessageStore) (filter : MessageFilter) : List MessageEvent :=
  match filter.sessionId with
  | some sid =>
    if sid = "" then (st.messages.values).flatten else st.getBySession sid
  | none => (st.messages.values).flatten

/-- The `if (filter.direction)` reassignment of `results` (the direction
enum strings are never empty, so truthiness equals presence). -/
def queryDirection (filter : MessageFilter) (results : List MessageEvent) :
    List MessageEvent :=
  match filter.direction with
  | some d => results.filter (fun m => decide (m.direction = d))
  | none => results

/-- The `if (filter.method)` reassignment of `results`; an empty method
string is falsy, so the clause is skipped for it. -/
def queryMethod (filter : MessageFilter) (results : List MessageEvent) :
    List MessageEvent :=
  match filter.method with
  | some meth =>
    if meth = "" then results
    else results.filter (fun m => decide (m.method = some meth))
  | none => results

/-- The `if (filter.hasError !== undefined)` reassignment of `results`:
the guard tests presence, not truthiness. -/
def queryHasError (filter : MessageFilter) (results : List MessageEvent) :
    List MessageEvent :=
  match filter.hasError with
  | some he => results.filter (fun m => decide (m.payload.hasErrorField = he))
  | none => results

/-- The `if (filter.startTime)` reassignment of `results` (`Date` objects
are always truthy): inclusive lower bound `m.timestamp >= startTime`. -/
def queryStartTime (filter : MessageFilter) (results : List MessageEvent) :
    List MessageEvent :=
  match filter.startTime with
  | some t => results.filter (fun m => decide (t ≤ m.timestamp))
  | none => results

/-- The `if (filter.endTime)` reassignment of `results`: inclusive upper
bound `m.timestamp <= endTime`. -/
def queryEndTime (filter : MessageFilter) (results : List MessageEvent) :
    List MessageEvent :=
  match filter.endTime with
  | some t => results.filter (fun m => decide (m.timestamp ≤ t))
  | none => results

/-- Source: `MessageStore.query`: the sequential reassignments of `results` in
source order. -/
def query (st : MessageStore) (filter : MessageFilter) : List MessageEvent :=
  queryEndTime filter (queryStartTime filter (queryHasError filter
    (queryMethod filter (queryDirection filter (queryBase st filter)))))

/-- Source: `MessageStore.correlate`. -/
def correlate (st : MessageStore) (sessionId : String) (requestId : RId) :
    Option RequestResponsePair :=
  let messages := st.getBySession sessionId
  match messages.find?
      (fun m => decide (m.direction = .outbound ∧ m.requestId = some requestId)) with
  | none => none
  | some request =>
    let response := messages.find?
      (fun m => decide (m.direction = .inbound ∧ m.requestId = some requestId))
    let latencyMs :=
      match response with
      | some r => some (r.timestamp - request.timestamp)
      | none => none
    some ⟨request, response, latencyMs⟩

/-- Source: `MessageStore.countBySession`. -/
def countBySession (st : MessageStore) (sessionId : String) : Nat :=
  (st.getBySession sessionId).length

/-- Source: `MessageStore.count`. -/
def count (st : MessageStore) : Nat :=
  (st.messages.values).foldl (fun total msgs => total + msgs.length) 0

/-- The body of `clearSession`'s loop over the session's messages: drop
the message's index entry, if it has one. -/
def clearStep (sessionId : String) (idx : JsMap String MessageEvent)
    (message : MessageEvent) : JsMap String MessageEvent :=
  match message.requestId with
  | some rid => idx.delete (makeRequestKey sessionId rid)
  | none => idx

/-- Source: `MessageStore.clearSession`: removes the session's log and, for each
of its messages that carries a request id, the corresponding index
entry. -/
def clearSession (st : MessageStore) (sessionId : String) : MessageStore :=
  let messages := (st.messages.get sessionId).getD []
  let byRequestId := messages.foldl (clearStep sessionId) st.byRequestId
  ⟨st.messages.delete sessionId, byRequestId⟩

/-- Source: `MessageStore.clear`. -/
def clear (_ : MessageStore) : MessageStore := empty

/-- Folding `store` over a list of events, starting from the fresh store:
the state after an arbitrary sequence of `store` calls. -/
def mkStore (events : List MessageEvent) : MessageStore :=
  events.foldl store empty

end MessageStore

/-! ## Session registry (`packages/core/src/session/manager.ts` and the
`createSession` factory in `packages/core/src/types`) -/

/-- Source: `createSession` from the types module.  `crypto.randomUUID()` and
`new Date()` are modelled as the explicit parameters `id` and `now`. -/
def createSession (id : String) (now : Int) (config : ServerConfig) : Session :=
  { id := id
    state := .CREATED
    createdAt := now
    updatedAt := now
    config := config
    protocol := "mcp" }

/-- The `SessionManager` state. -/
structure SessionManager where
  sessions : JsMap String Session

namespace SessionManager

/-- Source: `new SessionManager()`. -/
def empty : SessionManager := ⟨JsMap.empty⟩

/-- Source: `SessionManager.create`.  The id drawn from `crypto.randomUUID()` and
the clock reading are explicit parameters; the source performs no
validation of `config`. -/
def create (m : SessionManager) (config : ServerConfig) (id : String)
    (now : Int) : Session × SessionManager :=
  let session := createSession id now config
  (session, ⟨m.sessions.set session.id session⟩)

/-- Source: `SessionManager.get`. -/
def get (m : SessionManager) (id : String) : Option Session :=
  m.sessions.get id

/-- Source: `SessionManager.list`. -/
def list (m : SessionManager) : List Session :=
  m.sessions.values.filter
    (fun session => decide (session.state ≠ .CLOSED ∧ session.state ≠ .ERROR))

/-- Source: `SessionManager.listAll`. -/
def listAll (m : SessionManager) : List Session :=
  m.sessions.values

/-- Source: `SessionManager.close` (`new Date()` is the parameter `now`). -/
def close (m : SessionManager) (id : String) (now : Int) : SessionManager :=
  match m.sessions.get id with
  | some session =>
    ⟨m.sessions.set id { session with state := .CLOSED, updatedAt := now }⟩
  | none => m

/-- Source: `SessionManager.updateState`. -/
def updateState (m : SessionManager) (id : String) (state : SessionState)
    (now : Int) : SessionManager :=
  match m.sessions.get id with
  | some session =>
    ⟨m.sessions.set id { session with state := state, updatedAt := now }⟩
  | none => m

/-- Source: `SessionManager.updateCapabilities`; each capability map is assigned
only when supplied (JS truthiness on an object: `undefined` is falsy). -/
def updateCapabilities (m : SessionManager) (id : String)
    (clientCapabilities serverCapabilities : Option Caps) (now : Int) :
    SessionManager :=
  match m.sessions.get id with
  | some session =>
    let s₁ :=
      match clientCapabilities with
      | some cc => { session with clientCapabilities := some cc }
      | none => session
    let s₂ :=
      match serverCapabilities with
      | some sc => { s₁ with serverCapabilities := some sc }
      | none => s₁
    ⟨m.sessions.set id { s₂ with updatedAt := now }⟩
  | none => m

/-- Source: `SessionManager.delete`: the returned Bool is whether the id existed. -/
def delete (m : SessionManager) (id : String) : Bool × SessionManager :=
  (m.sessions.has id, ⟨m.sessions.delete id⟩)

/-- Source: `SessionManager.count`. -/
def count (m : SessionManager) : Nat :=
  m.sessions.size

end SessionManager

/-! ## Interception pipeline (`packages/core/src/middleware/pipeline.ts`) -/

/-- Source: `ContextKey<T>` from the types module: a unique token plus an
optional default.  The JS `symbol` is modelled as a `Nat` identity. -/
structure ContextKey (V : Type) where
  id : Nat
  defaultValue : Option V := none

/-- Source: `createContextKey` from the types module; `Symbol(name)` is modelled
as the externally supplied fresh token `sym`. -/
def createContextKey {V : Type} (sym : Nat) (_name : String)
    (defaultValue : Option V) : ContextKey V :=
  { id := sym, defaultValue := defaultValue }

/-- The concrete `Context` class: one event, one session, and the keyed
extension map (`Map<symbol, unknown>`); extension values live in `V`. -/
structure Context (V : Type) where
  event : MessageEvent
  session : Session
  extensions : JsMap Nat V

namespace Context

/-- Source: `new Context(event, session)`: the extension map starts empty. -/
def init {V : Type} (event : MessageEvent) (session : Session) : Context V :=
  ⟨event, session, JsMap.empty⟩

/-- Source: `Context.get`: the stored value, else the key's declared default. -/
def get {V : Type} (ctx : Context V) (key : ContextKey V) : Option V :=
  match ctx.extensions.get key.id with
  | none => key.defaultValue
  | some v => some v

/-- Source: `Context.set`. -/
def set {V : Type} (ctx : Context V) (key : ContextKey V) (v : V) :
    Context V :=
  { ctx with extensions := ctx.extensions.set key.id v }

/-- A sequence of `set` calls performed during one run, in order. -/
def applySets {V : Type} (ctx : Context V) (sets : List (ContextKey V × V)) :
    Context V :=
  sets.foldl (fun c kv => c.set kv.1 kv.2) ctx

end Context

/-- Outcome of one middleware computation: the promise either resolves
(`Except.ok`) or rejects with the thrown value, and the shared mutable
state (context extensions, stores written into by handlers) has a final
value either way. -/
abbrev MwResult (ε σ : Type) := Except ε Unit × σ

/-- A middleware `(ctx, next) => Promise<void>`: it receives the shared
state and the continuation for the rest of the chain. -/
abbrev Mw (ε σ : Type) := σ → (σ → MwResult ε σ) → MwResult ε σ

/-- Modelled from the spec: `koa-compose`, the composition utility called
by `MiddlewarePipeline.run`, is an external npm dependency whose source
is not part of this repository.  Design note §9 describes it as a right
fold producing nested continuation calls: each middleware is applied to
the current state and the composition of the rest of the chain. -/
def compose {ε σ : Type} : List (Mw ε σ) → σ → MwResult ε σ
  | [], s => (Except.ok (), s)
  | m :: rest, s => m s (compose rest)

/-- Source: `MiddlewarePipeline` (the cached composed function is a pure
optimization with no semantic content and is not modelled). -/
structure MiddlewarePipeline (ε σ : Type) where
  middlewares : List (Mw ε σ)

namespace MiddlewarePipeline

/-- Source: `createPipeline()` / `new MiddlewarePipeline()`. -/
def mkEmpty (ε σ : Type) : MiddlewarePipeline ε σ := ⟨[]⟩

/-- Source: `MiddlewarePipeline.use`: appends to the chain. -/
def use {ε σ : Type} (p : MiddlewarePipeline ε σ) (middleware : Mw ε σ) :
    MiddlewarePipeline ε σ :=
  ⟨p.middlewares ++ [middleware]⟩

/-- Source: `MiddlewarePipeline.run`. -/
def run {ε σ : Type} (p : MiddlewarePipeline ε σ) (s : σ) : MwResult ε σ :=
  compose p.middlewares s

/-- Source: `MiddlewarePipeline.process`: constructs a fresh context bound to
`(event, session)` and runs the chain on it. -/
def process {ε V : Type} (p : MiddlewarePipeline ε (Context V))
    (event : MessageEvent) (session : Session) : MwResult ε (Context V) :=
  p.run (Context.init event session)

/-- Source: `MiddlewarePipeline.length`. -/
def length {ε σ : Type} (p : MiddlewarePipeline ε σ) : Nat :=
  p.middlewares.length

/-- Source: `MiddlewarePipeline.clear`. -/
def clear {ε σ : Type} (_ : MiddlewarePipeline ε σ) : MiddlewarePipeline ε σ :=
  ⟨[]⟩

end MiddlewarePipeline

/-- A handler whose body is structured the way the spec describes: code
before the single `continuation` call, the decision whether to make that
call, and code after it.  `after` runs only when the continuation was
invoked and the rest of the chain resolved; a rejection coming out of
`next` that the handler does not catch skips `after` and propagates. -/
structure SHandler (σ : Type) where
  before : σ → σ
  callsNext : Bool
  after : σ → σ

/-- The middleware a structured handler denotes. -/
def SHandler.toMw {ε σ : Type} (h : SHandler σ) : Mw ε σ := fun s next =>
  let s₁ := h.before s
  if h.callsNext then
    match next s₁ with
    | (Except.ok _, s₂) => (Except.ok (), h.after s₂)
    | (Except.error e, s₂) => (Except.error e, s₂)
  else (Except.ok (), s₁)

/-- A handler that performs the side effect `f` and then throws `e`,
never invoking its continuation. -/
def throwingMw {ε σ : Type} (f : σ → σ) (e : ε) : Mw ε σ :=
  fun s _ => (Except.error e, f s)

/-- Reference semantics for a chain of structured handlers: before-code
in registration order on the way in, after-code in reverse registration
order on the way out, stopping at the first handler that does not call
its continuation. -/
def runChain {σ : Type} : List (SHandler σ) → σ → σ
  | [], s => s
  | h :: rest, s =>
    let s₁ := h.before s
    if h.callsNext then h.after (runChain rest s₁) else s₁

/-! ## Message event factory (`createMessageEvent` in types) -/

/-- An opening curly brace. -/
def lbrace : String := "\x7b"

/-- A closing curly brace. -/
def rbrace : String := "\x7d"

/-- Lowercase hex digit. -/
def hexDigit (n : Nat) : Char :=
  if n < 10 then Char.ofNat (48 + n) else Char.ofNat (87 + n)

/-- JSON string escaping as performed by `JSON.stringify`: quote,
backslash and control characters are escaped, everything else (including
non-ASCII) is emitted literally. -/
def escapeJsonChar (c : Char) : String :=
  if c = '"' then "\\\""
  else if c = '\\' then "\\\\"
  else if c.toNat = 8 then "\\b"
  else if c.toNat = 9 then "\\t"
  else if c.toNat = 10 then "\\n"
  else if c.toNat = 12 then "\\f"
  else if c.toNat = 13 then "\\r"
  else if c.toNat < 32 then
    "\\u00" ++ String.mk [hexDigit (c.toNat / 16), hexDigit (c.toNat % 16)]
  else String.singleton c

/-- A JSON string literal for `s`. -/
def quoteJson (s : String) : String :=
  "\"" ++ String.join (s.data.map escapeJsonChar) ++ "\""

mutual

/-- Source: `JSON.stringify` of a JSON value: compact form (no indent argument),
object keys in insertion order. -/
def jsonToString : Json → String
  | Json.null => "null"
  | Json.bool true => "true"
  | Json.bool false => "false"
  | Json.num n => toString n
  | Json.str s => quoteJson s
  | Json.arr elems => "[" ++ jsonArrToString elems ++ "]"
  | Json.obj fields => lbrace ++ jsonObjToString fields ++ rbrace

/-- Comma-separated serialization of array elements. -/
def jsonArrToString : List Json → String
  | [] => ""
  | [x] => jsonToString x
  | x :: xs => jsonToString x ++ "," ++ jsonArrToString xs

/-- Comma-separated serialization of object members. -/
def jsonObjToString : List (String × Json) → String
  | [] => ""
  | [(k, v)] => quoteJson k ++ ":" ++ jsonToString v
  | (k, v) :: fs => quoteJson k ++ ":" ++ jsonToString v ++ "," ++ jsonObjToString fs

end

/-- The JSON value of a request id. -/
def RId.toJson : RId → Json
  | .str s => Json.str s
  | .num n => Json.num n

/-- The JSON object a payload denotes, with keys in the declaration order
of the zod schemas and optional members present only when supplied. -/
def JsonRpcMessage.toJson : JsonRpcMessage → Json
  | .request id method params =>
    Json.obj ([("jsonrpc", Json.str "2.0"), ("id", id.toJson),
        ("method", Json.str method)] ++
      (match params with | some p => [("params", p)] | none => []))
  | .response id result error =>
    Json.obj ([("jsonrpc", Json.str "2.0"),
        ("id", match id with | some r => r.toJson | none => Json.null)] ++
      (match result with | some r => [("result", r)] | none => []) ++
      (match error with
       | some e =>
         [("error", Json.obj ([("code", Json.num e.code),
            ("message", Json.str e.message)] ++
           (match e.data with | some d => [("data", d)] | none => [])))]
       | none => []))
  | .notify method params =>
    Json.obj ([("jsonrpc", Json.str "2.0"), ("method", Json.str method)] ++
      (match params with | some p => [("params", p)] | none => []))

/-- Source: `JSON.stringify(payload)`. -/
def stringifyPayload (payload : JsonRpcMessage) : String :=
  jsonToString payload.toJson

/-- JS `string.length`: the number of UTF-16 code units. -/
def jsStringLength (s : String) : Nat :=
  s.data.foldl (fun n c => n + (if c.toNat < 65536 then 1 else 2)) 0

/-- Number of bytes of the UTF-8 encoding of one character. -/
def charUtf8Size (c : Char) : Nat :=
  if c.toNat ≤ 127 then 1
  else if c.toNat ≤ 2047 then 2
  else if c.toNat ≤ 65535 then 3
  else 4

/-- The UTF-8 byte length of a string — what "byte length of the
serialized payload" denotes for a JSON body. -/
def utf8Length (s : String) : Nat :=
  s.data.foldl (fun n c => n + charUtf8Size c) 0

/-- Source: `createMessageEvent` from the types module, parameters in source
order; `crypto.randomUUID()` and `new Date()` are the trailing
parameters `id` and `now`. -/
def createMessageEvent (sessionId : String) (direction : Direction)
    (payload : JsonRpcMessage) (protocol : String) (id : String) (now : Int) :
    MessageEvent :=
  { id := id
    sessionId := sessionId
    timestamp := now
    direction := direction
    protocol := protocol
    payload := payload
    method := payload.methodField
    requestId := payload.idField
    size := some (jsStringLength (stringifyPayload payload)) }

/-! ## Specification-side notions -/

/-- Source: `x` is the first element of `l` satisfying `p`: `l` splits as a
prefix with no satisfying element, then `x`, then a remainder. -/
def FirstWith {γ : Type} (l : List γ) (p : γ → Bool) (x : γ) : Prop :=
  ∃ l₁ l₂, l = l₁ ++ x :: l₂ ∧ p x = true ∧ ∀ y ∈ l₁, p y = false

theorem find?_eq_some_iff_firstWith {γ : Type} (l : List γ) (p : γ → Bool)
    (x : γ) : l.find? p = some x ↔ FirstWith l p x := by
  rw [List.find?_eq_some]
  unfold FirstWith
  constructor
  · rintro ⟨hpx, as, bs, rfl, hall⟩
    exact ⟨as, bs, rfl, hpx, fun y hy => by simpa using hall y hy⟩
  · rintro ⟨l₁, l₂, rfl, hpx, hall⟩
    exact ⟨hpx, l₁, l₂, rfl, fun a ha => by simpa using hall a ha⟩

/-- Claim C2: for every store state, session and request id, `correlate`
takes as the request the first stored event of the session's log with
direction `outbound` and that request id (if none exists the whole result
is `none`, whatever inbound events exist, and in particular a second
outbound event is never used as the response); the response is the first
stored event with direction `inbound` and that request id, and may be
absent; `latencyMs` is `response.timestamp - request.timestamp` (an `Int`
subtraction, so possibly negative) exactly when both events exist. -/
theorem correlate_first_match_characterization
    (st : MessageStore) (sid : String) (rid : RId) :
    match st.correlate sid rid with
    | none =>
      ∀ e ∈ st.getBySession sid,
        ¬ (e.direction = .outbound ∧ e.requestId = some rid)
    | some pair =>
      FirstWith (st.getBySession sid)
        (fun m => decide (m.direction = .outbound ∧ m.requestId = some rid))
        pair.request ∧
      (match pair.response with
       | none =>
         pair.latencyMs = none ∧
         ∀ e ∈ st.getBySession sid,
           ¬ (e.direction = .inbound ∧ e.requestId = some rid)
       | some r =>
         FirstWith (st.getBySession sid)
           (fun m => decide (m.direction = .inbound ∧ m.requestId = some rid))
           r ∧
         pair.latencyMs = some (r.timestamp - pair.request.timestamp)) := by
  cases hreq : (st.getBySession sid).find?
      (fun m => decide (m.direction = .outbound ∧ m.requestId = some rid)) with
  | none =>
    have hc : st.correlate sid rid = none := by
      simp only [MessageStore.correlate, hreq]
    rw [hc]
    rw [List.find?_eq_none] at hreq
    intro e he
    simpa using hreq e he
  | some request =>
    cases hresp : (st.getBySession sid).find?
        (fun m => decide (m.direction = .inbound ∧ m.requestId = some rid)) with
    | none =>
      have hc : st.correlate sid rid = some ⟨request, none, none⟩ := by
        simp only [MessageStore.correlate, hreq, hresp]
      rw [hc]
      refine ⟨(find?_eq_some_iff_firstWith _ _ _).mp hreq, rfl, ?_⟩
      rw [List.find?_eq_none] at hresp
      intro e he
      simpa using hresp e he
    | some r =>
      have hc : st.correlate sid rid =
          some ⟨request, some r, some (r.timestamp - request.timestamp)⟩ := by
        simp only [MessageStore.correlate, hreq, hresp]
      rw [hc]
      exact ⟨(find?_eq_some_iff_firstWith _ _ _).mp hreq,
        (find?_eq_some_iff_firstWith _ _ _).mp hresp, rfl⟩

/-- The index key an event contributes when it carries a request id. -/
def derivedKey (e : MessageEvent) : Option String :=
  e.requestId.map (fun rid => MessageStore.makeRequestKey e.sessionId rid)

theorem store_messages_eq (st : MessageStore) (e : MessageEvent) :
    (st.store e).messages =
      st.messages.set e.sessionId
        (((st.messages.get e.sessionId).getD []) ++ [e]) := by
  unfold MessageStore.store
  cases e.requestId <;> rfl

theorem store_messages_get (st : MessageStore) (e : MessageEvent) (k : String) :
    (st.store e).messages.get k =
      if k = e.sessionId
      then some (((st.messages.get e.sessionId).getD []) ++ [e])
      else st.messages.get k := by
  rw [store_messages_eq, JsMap.get_set]

theorem store_byRequestId_get (st : MessageStore) (e : MessageEvent)
    (key : String) :
    (st.store e).byRequestId.get key =
      if derivedKey e = some key then some e else st.byRequestId.get key := by
  unfold MessageStore.store derivedKey
  cases hr : e.requestId with
  | none => simp [hr]
  | some rid =>
    simp only [hr, Option.map_some']
    rw [JsMap.get_set]
    by_cases hk : key = MessageStore.makeRequestKey e.sessionId rid
    · rw [if_pos hk, if_pos (by rw [hk])]
    · rw [if_neg hk, if_neg (by simpa using fun h => hk h.symm)]

theorem foldl_store_byRequestId (evs : List MessageEvent) (st : MessageStore)
    (key : String) :
    (evs.foldl MessageStore.store st).byRequestId.get key =
      (evs.reverse.find? (fun e => decide (derivedKey e = some key))).or
        (st.byRequestId.get key) := by
  induction evs generalizing st with
  | nil => simp
  | cons e rest ih =>
    rw [List.foldl_cons, ih (st.store e), List.reverse_cons, List.find?_append]
    cases hfind : rest.reverse.find? (fun e => decide (derivedKey e = some key)) with
    | some x => rfl
    | none =>
      rw [store_byRequestId_get]
      by_cases hde : derivedKey e = some key
      · rw [if_pos hde]
        simp [List.find?_singleton, hde]
      · rw [if_neg hde]
        simp [List.find?_singleton, hde]

/-- Claim C3 (amended): after any sequence of `store` calls, the
secondary index is keyed by the concatenated string
`sessionId + ":" + requestId`; for every such derived key the index —
and hence `getByRequestId` — holds the most recently stored event whose
derived key matches (the first match in the reversed event sequence),
and only events carrying a `requestId` are ever indexed.  (`correlate`
itself does not read the index: it pairs the first matching events of
the session log; see the counterexample.) -/
theorem index_reflects_most_recent :
    (∀ (evs : List MessageEvent) (key : String),
      (MessageStore.mkStore evs).byRequestId.get key =
        evs.reverse.find? (fun e => decide (derivedKey e = some key))) ∧
    (∀ (evs : List MessageEvent) (sid : String) (rid : RId),
      (MessageStore.mkStore evs).getByRequestId sid rid =
        evs.reverse.find? (fun e =>
          decide (derivedKey e = some (MessageStore.makeRequestKey sid rid)))) ∧
    (∀ (evs : List MessageEvent) (key : String) (e : MessageEvent),
      (MessageStore.mkStore evs).byRequestId.get key = some e →
        derivedKey e = some key) := by
  have hmain : ∀ (evs : List MessageEvent) (key : String),
      (MessageStore.mkStore evs).byRequestId.get key =
        evs.reverse.find? (fun e => decide (derivedKey e = some key)) := by
    intro evs key
    rw [MessageStore.mkStore, foldl_store_byRequestId]
    simp [MessageStore.empty, JsMap.get_empty]
  refine ⟨hmain, fun evs sid rid => hmain evs _, ?_⟩
  intro evs key e h
  rw [hmain] at h
  have := List.find?_some h
  simpa using this

/-- Concrete event: first outbound request with id `1` in session `s`. -/
def c3out1 : MessageEvent :=
  { id := "e1", sessionId := "s", timestamp := 0, direction := .outbound
    payload := .request (.num 1) "m1" none
    method := some "m1", requestId := some (.num 1) }

/-- Concrete event: second outbound request with the same id `1`. -/
def c3out2 : MessageEvent :=
  { id := "e2", sessionId := "s", timestamp := 10, direction := .outbound
    payload := .request (.num 1) "m2" none
    method := some "m2", requestId := some (.num 1) }

/-- Concrete event stored under the pair `("a", "1:b")`, whose derived
key `"a:1:b"` coincides with that of the distinct pair `("a:1", "b")`. -/
def c3cross : MessageEvent :=
  { id := "e3", sessionId := "a", timestamp := 0, direction := .outbound
    payload := .request (.str "1:b") "m3" none
    method := some "m3", requestId := some (.str "1:b") }

/-- Claim C3, counterexample: with two outbound events sharing the key
`("s", 1)`, the index (and `getByRequestId`) holds the most recent event
`e2`, but `correlate` pairs the first one, `e1` — so correlation does
not "always reflect the most recently stored event with that key"; and
the derived key of the never-stored pair `("a:1", "b")` resolves to the
event stored under `("a", "1:b")`, so the index is not keyed by the pair
`(sessionId, requestId)` itself. -/
theorem index_counterexample :
    ((MessageStore.mkStore [c3out1, c3out2]).correlate "s" (.num 1)).map
        (fun p => p.request.id) = some "e1" ∧
    ((MessageStore.mkStore [c3out1, c3out2]).getByRequestId "s" (.num 1)).map
        MessageEvent.id = some "e2" ∧
    (MessageStore.mkStore [c3cross]).getByRequestId "a:1" (.str "b")
      = some c3cross :=
  ⟨rfl, rfl, rfl⟩

theorem clearStep_preserves_none (sid : String) (idx : JsMap String MessageEvent)
    (key : String) (m : MessageEvent) (h : idx.get key = none) :
    (MessageStore.clearStep sid idx m).get key = none := by
  unfold MessageStore.clearStep
  cases m.requestId with
  | none => exact h
  | some rid =>
    rw [JsMap.get_delete]
    by_cases hk : key = MessageStore.makeRequestKey sid rid
    · rw [if_pos hk]
    · rw [if_neg hk]
      exact h

theorem foldl_clearStep_preserves_none (msgs : List MessageEvent) (sid : String)
    (idx : JsMap String MessageEvent) (key : String) (h : idx.get key = none) :
    (msgs.foldl (MessageStore.clearStep sid) idx).get key = none := by
  induction msgs generalizing idx with
  | nil => exact h
  | cons m rest ih =>
    exact ih _ (clearStep_preserves_none sid idx key m h)

theorem foldl_clearStep_get_none (msgs : List MessageEvent) (sid : String)
    (idx : JsMap String MessageEvent) (key : String)
    (h : ∃ m ∈ msgs, ∃ r, m.requestId = some r ∧
      MessageStore.makeRequestKey sid r = key) :
    (msgs.foldl (MessageStore.clearStep sid) idx).get key = none := by
  induction msgs generalizing idx with
  | nil => simp at h
  | cons m rest ih =>
    obtain ⟨m', hm', r, hr, hkey⟩ := h
    rw [List.mem_cons] at hm'
    rcases hm' with rfl | hm'
    · rw [List.foldl_cons]
      apply foldl_clearStep_preserves_none
      unfold MessageStore.clearStep
      rw [hr, JsMap.get_delete, if_pos hkey.symm]
    · exact ih _ ⟨m', hm', r, hr, hkey⟩

/-- Claim C10: pairs `(sessionId, requestId)` whose concatenations
`sessionId + ":" + requestId` coincide share one index entry:
`getByRequestId` answers identically for both pairs, storing an event
under either pair overwrites the shared entry (a lookup through the
other pair sees it), and `clearSession` on one session removes the entry
also as seen through the colliding pair. -/
theorem request_key_collisions (st : MessageStore) (sid₁ sid₂ : String)
    (rid₁ rid₂ : RId)
    (h : MessageStore.makeRequestKey sid₁ rid₁ =
      MessageStore.makeRequestKey sid₂ rid₂) :
    (st.getByRequestId sid₁ rid₁ = st.getByRequestId sid₂ rid₂) ∧
    (∀ e : MessageEvent, e.sessionId = sid₂ → e.requestId = some rid₂ →
      (st.store e).getByRequestId sid₁ rid₁ = some e) ∧
    (∀ e : MessageEvent, e.sessionId = sid₁ → e.requestId = some rid₁ →
      ((st.store e).clearSession sid₁).getByRequestId sid₂ rid₂ = none) := by
  refine ⟨?_, ?_, ?_⟩
  · unfold MessageStore.getByRequestId
    rw [h]
  · intro e hsid hrid
    unfold MessageStore.getByRequestId
    rw [h]
    rw [show MessageStore.makeRequestKey sid₂ rid₂ =
        MessageStore.makeRequestKey e.sessionId rid₂ by rw [hsid]]
    have := store_byRequestId_get st e (MessageStore.makeRequestKey e.sessionId rid₂)
    rw [this, if_pos (by rw [derivedKey, hrid, Option.map_some'])]
  · intro e hsid hrid
    unfold MessageStore.getByRequestId MessageStore.clearSession
    apply foldl_clearStep_get_none
    refine ⟨e, ?_, rid₁, hrid, by rw [h]⟩
    rw [store_messages_get, if_pos hsid.symm, Option.getD_some]
    exact List.mem_append_right _ (List.mem_singleton_self e)

/-! ## Query semantics (claim C6) -/

/-- Every event in the store, across all sessions (`Array.from(values).flat()`). -/
def MessageStore.allEvents (st : MessageStore) : List MessageEvent :=
  (st.messages.values).flatten

/-- Well-formedness of a store state: bucket keys are distinct (JS `Map`
keys are) and every event sits in the bucket of its own session id
(which `store` guarantees by appending each event to the bucket keyed by
`event.sessionId`). -/
def MessageStore.WF (st : MessageStore) : Prop :=
  st.messages.entries.Pairwise (fun a b => a.1 ≠ b.1) ∧
  ∀ p ∈ st.messages.entries, ∀ e ∈ p.2, e.sessionId = p.1

/-- The conjunction of constraints a filter denotes.  A supplied but
empty `sessionId` or `method` is treated as absent (JS truthiness in the
source's `if (filter.sessionId)` / `if (filter.method)` guards); both
time bounds are inclusive. -/
def matchesFilter (filter : MessageFilter) (e : MessageEvent) : Prop :=
  (match filter.sessionId with
   | some sid => sid = "" ∨ e.sessionId = sid
   | none => True) ∧
  (match filter.direction with
   | some d => e.direction = d
   | none => True) ∧
  (match filter.method with
   | some meth => meth = "" ∨ e.method = some meth
   | none => True) ∧
  (match filter.hasError with
   | some he => e.payload.hasErrorField = he
   | none => True) ∧
  (match filter.startTime with
   | some t => t ≤ e.timestamp
   | none => True) ∧
  (match filter.endTime with
   | some t => e.timestamp ≤ t
   | none => True)

theorem find?_key_of_mem {α β : Type} [DecidableEq α] (l : List (α × β))
    (p : α × β) (hdist : l.Pairwise (fun a b => a.1 ≠ b.1)) (hp : p ∈ l) :
    l.find? (fun q => decide (q.1 = p.1)) = some p := by
  induction l with
  | nil => cases hp
  | cons q rest ih =>
    rw [List.pairwise_cons] at hdist
    rcases List.mem_cons.mp hp with rfl | hp'
    · exact List.find?_cons_of_pos _ (by simp)
    · have hq : q.1 ≠ p.1 := hdist.1 p hp'
      rw [List.find?_cons_of_neg _ (by simpa using hq)]
      exact ih hdist.2 hp'

theorem mem_allEvents (st : MessageStore) (e : MessageEvent) :
    e ∈ st.allEvents ↔ ∃ p ∈ st.messages.entries, e ∈ p.2 := by
  unfold MessageStore.allEvents JsMap.values
  rw [List.mem_flatten]
  constructor
  · rintro ⟨l, hl, he⟩
    rcases List.mem_map.mp hl with ⟨p, hp, rfl⟩
    exact ⟨p, hp, he⟩
  · rintro ⟨p, hp, he⟩
    exact ⟨p.2, List.mem_map_of_mem _ hp, he⟩

theorem mem_bucket_sessionId (st : MessageStore) (hwf : st.WF) (sid : String)
    (e : MessageEvent) (he : e ∈ (st.messages.get sid).getD []) :
    e.sessionId = sid ∧ e ∈ st.allEvents := by
  cases hget : st.messages.get sid with
  | none => rw [hget] at he; cases he
  | some l =>
    rw [hget, Option.getD_some] at he
    unfold JsMap.get at hget
    cases hfind : st.messages.entries.find? (fun p => decide (p.1 = sid)) with
    | none => rw [hfind] at hget; cases hget
    | some p =>
      rw [hfind, Option.map_some', Option.some_inj] at hget
      have hpmem := List.mem_of_find?_eq_some hfind
      have hkey : p.1 = sid := by
        have := List.find?_some hfind
        simpa using this
      have hel : e ∈ p.2 := by rw [hget]; exact he
      exact ⟨(hwf.2 p hpmem e hel).trans hkey,
        (mem_allEvents st e).mpr ⟨p, hpmem, hel⟩⟩

theorem mem_bucket_of_allEvents (st : MessageStore) (hwf : st.WF)
    (e : MessageEvent) (hall : e ∈ st.allEvents) :
    e ∈ (st.messages.get e.sessionId).getD [] := by
  obtain ⟨p, hp, he⟩ := (mem_allEvents st e).mp hall
  have hkey : e.sessionId = p.1 := hwf.2 p hp e he
  have hfind := find?_key_of_mem st.messages.entries p hwf.1 hp
  have hget : st.messages.get e.sessionId = some p.2 := by
    unfold JsMap.get
    rw [hkey, hfind, Option.map_some']
  rw [hget, Option.getD_some]
  exact he

theorem mem_getBySession_iff (st : MessageStore) (hwf : st.WF) (sid : String)
    (e : MessageEvent) :
    e ∈ st.getBySession sid ↔ e ∈ st.allEvents ∧ e.sessionId = sid := by
  unfold MessageStore.getBySession
  constructor
  · intro he
    have := mem_bucket_sessionId st hwf sid e he
    exact ⟨this.2, this.1⟩
  · rintro ⟨hall, rfl⟩
    exact mem_bucket_of_allEvents st hwf e hall

theorem JsMap.entries_set {α β : Type} [DecidableEq α] (m : JsMap α β)
    (k : α) (v : β) :
    (m.set k v).entries =
      if m.entries.any (fun p => decide (p.1 = k)) then
        m.entries.map (fun p => if p.1 = k then (k, v) else p)
      else m.entries ++ [(k, v)] := by
  unfold JsMap.set
  split <;> rfl

theorem pairwise_keys_set {α β : Type} [DecidableEq α] (m : JsMap α β)
    (k : α) (v : β) (h : m.entries.Pairwise (fun a b => a.1 ≠ b.1)) :
    (m.set k v).entries.Pairwise (fun a b => a.1 ≠ b.1) := by
  rw [JsMap.entries_set]
  split
  case isTrue hany =>
    rw [List.pairwise_map]
    refine h.imp ?_
    intro a b hab
    by_cases ha : a.1 = k <;> by_cases hb : b.1 = k <;>
      simp only [ha, hb, if_true, if_false] <;> simp_all
  case isFalse hany =>
    rw [List.pairwise_append]
    refine ⟨h, List.pairwise_singleton _ _, ?_⟩
    intro a ha b hb
    rw [List.mem_singleton] at hb
    subst hb
    simp only [List.any_eq_true, decide_eq_true_eq] at hany
    exact fun hc => hany ⟨a, ha, hc⟩

theorem WF_empty : MessageStore.empty.WF := by
  constructor
  · exact List.Pairwise.nil
  · intro p hp
    cases hp

theorem WF_store (st : MessageStore) (e : MessageEvent) (hwf : st.WF) :
    (st.store e).WF := by
  have hbucket : ∀ x ∈ ((st.messages.get e.sessionId).getD []) ++ [e],
      x.sessionId = e.sessionId := by
    intro x hx
    rcases List.mem_append.mp hx with hx | hx
    · exact (mem_bucket_sessionId st hwf e.sessionId x hx).1
    · rw [List.mem_singleton] at hx
      subst hx
      rfl
  constructor
  · rw [store_messages_eq]
    exact pairwise_keys_set _ _ _ hwf.1
  · rw [store_messages_eq, JsMap.entries_set]
    split
    case isTrue hany =>
      intro p hp x hx
      rcases List.mem_map.mp hp with ⟨q, hq, rfl⟩
      by_cases hqe : q.1 = e.sessionId
      · simp only [hqe, if_true] at hx ⊢
        exact hbucket x hx
      · simp only [hqe, if_false] at hx ⊢
        exact hwf.2 q hq x hx
    case isFalse hany =>
      intro p hp x hx
      rcases List.mem_append.mp hp with hp | hp
      · exact hwf.2 p hp x hx
      · rw [List.mem_singleton] at hp
        subst hp
        exact hbucket x hx

theorem mem_queryBase (st : MessageStore) (filter : MessageFilter)
    (e : MessageEvent) (hwf : st.WF) :
    e ∈ MessageStore.queryBase st filter ↔
      e ∈ st.allEvents ∧
        (match filter.sessionId with
         | some sid => sid = "" ∨ e.sessionId = sid
         | none => True) := by
  unfold MessageStore.queryBase
  cases filter.sessionId with
  | none => simp [MessageStore.allEvents]
  | some sid =>
    by_cases hs : sid = ""
    · simp [hs, MessageStore.allEvents]
    · simp [hs, MessageStore.allEvents, mem_getBySession_iff st hwf]

theorem mem_queryDirection (filter : MessageFilter) (l : List MessageEvent)
    (e : MessageEvent) :
    e ∈ MessageStore.queryDirection filter l ↔
      e ∈ l ∧
        (match filter.direction with
         | some d => e.direction = d
         | none => True) := by
  unfold MessageStore.queryDirection
  cases filter.direction with
  | none => simp
  | some d => simp [List.mem_filter]

theorem mem_queryMethod (filter : MessageFilter) (l : List MessageEvent)
    (e : MessageEvent) :
    e ∈ MessageStore.queryMethod filter l ↔
      e ∈ l ∧
        (match filter.method with
         | some meth => meth = "" ∨ e.method = some meth
         | none => True) := by
  unfold MessageStore.queryMethod
  cases filter.method with
  | none => simp
  | some meth =>
    by_cases hm : meth = ""
    · simp [hm]
    · simp [hm, List.mem_filter]

theorem mem_queryHasError (filter : MessageFilter) (l : List MessageEvent)
    (e : MessageEvent) :
    e ∈ MessageStore.queryHasError filter l ↔
      e ∈ l ∧
        (match filter.hasError with
         | some he => e.payload.hasErrorField = he
         | none => True) := by
  unfold MessageStore.queryHasError
  cases filter.hasError with
  | none => simp
  | some he => simp [List.mem_filter]

theorem mem_queryStartTime (filter : MessageFilter) (l : List MessageEvent)
    (e : MessageEvent) :
    e ∈ MessageStore.queryStartTime filter l ↔
      e ∈ l ∧
        (match filter.startTime with
         | some t => t ≤ e.timestamp
         | none => True) := by
  unfold MessageStore.queryStartTime
  cases filter.startTime with
  | none => simp
  | some t => simp [List.mem_filter]

theorem mem_queryEndTime (filter : MessageFilter) (l : List MessageEvent)
    (e : MessageEvent) :
    e ∈ MessageStore.queryEndTime filter l ↔
      e ∈ l ∧
        (match filter.endTime with
         | some t => e.timestamp ≤ t
         | none => True) := by
  unfold MessageStore.queryEndTime
  cases filter.endTime with
  | none => simp
  | some t => simp [List.mem_filter]

/-- Claim C6 (amended): for every well-formed store state (all states
reachable by `store` are), `query` returns exactly the stored events
satisfying the conjunction of the supplied constraints, where a supplied
but empty-string `sessionId` or `method` is treated as absent (JS
truthiness), and both time bounds are inclusive: an event with
`timestamp = startTime` passes a `startTime` filter and an event with
`timestamp = endTime` passes an `endTime` filter. -/
theorem query_is_conjunction :
    (∀ (st : MessageStore) (filter : MessageFilter) (e : MessageEvent),
      st.WF → (e ∈ st.query filter ↔ e ∈ st.allEvents ∧ matchesFilter filter e)) ∧
    MessageStore.WF MessageStore.empty ∧
    (∀ (st : MessageStore) (e : MessageEvent), st.WF → (st.store e).WF) := by
  refine ⟨?_, WF_empty, fun st e h => WF_store st e h⟩
  intro st filter e hwf
  unfold MessageStore.query matchesFilter
  rw [mem_queryEndTime, mem_queryStartTime, mem_queryHasError,
    mem_queryMethod, mem_queryDirection, mem_queryBase st filter e hwf]
  tauto

/-- Concrete stored event used for the query claims: outbound
`tools/list` request at timestamp 5 in session `s`. -/
def c6ev : MessageEvent :=
  { id := "q1", sessionId := "s", timestamp := 5, direction := .outbound
    payload := .request (.num 1) "tools/list" none
    method := some "tools/list", requestId := some (.num 1) }

/-- Filter whose time window collapses to the single instant 5. -/
def c6filter : MessageFilter :=
  { sessionId := some "s", direction := some .outbound
    startTime := some 5, endTime := some 5 }

/-- Claim C6, witness: an event exactly at `startTime = endTime` passes
both inclusive bounds, so `query` returns it. -/
theorem query_is_conjunction_witness :
    c6ev ∈ (MessageStore.mkStore [c6ev]).query c6filter := by
  have hwf : (MessageStore.mkStore [c6ev]).WF :=
    query_is_conjunction.2.2 MessageStore.empty c6ev query_is_conjunction.2.1
  refine (query_is_conjunction.1 _ c6filter c6ev hwf).mpr ⟨?_, ?_⟩
  · show c6ev ∈ [c6ev]
    exact List.mem_singleton_self c6ev
  · exact ⟨Or.inr rfl, rfl, trivial, trivial, le_refl _, le_refl _⟩

/-- Claim C6, counterexample: a filter that supplies `method = ""` is a
supplied constraint the returned event does not satisfy, yet `query`
returns the event (the source's truthiness guard skips the clause). -/
theorem query_counterexample :
    (MessageStore.mkStore [c6ev]).query { method := some "" } = [c6ev] ∧
    c6ev.method ≠ some "" :=
  ⟨rfl, by decide⟩

/-! ## Session creation (claims C1, C7) -/

theorem JsMap.size_set_fresh {α β : Type} [DecidableEq α] (m : JsMap α β)
    (k : α) (v : β) (h : m.get k = none) : (m.set k v).size = m.size + 1 := by
  unfold JsMap.size
  rw [JsMap.entries_set,
    if_neg (by rw [JsMap.any_eq_false_of_get_eq_none m k h]; exact Bool.false_ne_true)]
  simp

/-- Claim C1 (amended): `SessionManager.create` performs no validation.
For every config — including one with an empty `name` or missing
transport-specific fields — it builds a session carrying the freshly
drawn id, sets state `CREATED`, stamps `createdAt = updatedAt = now`,
attaches the config, stores the session under its id and returns it;
other sessions are untouched, and no failure path exists. -/
theorem create_stores_every_config (m : SessionManager) (config : ServerConfig)
    (id : String) (now : Int) (hfresh : m.get id = none) :
    ((m.create config id now).1.id = id) ∧
    ((m.create config id now).1.state = .CREATED) ∧
    ((m.create config id now).1.createdAt = now) ∧
    ((m.create config id now).1.updatedAt = now) ∧
    ((m.create config id now).1.config = config) ∧
    ((m.create config id now).2.get id = some (m.create config id now).1) ∧
    ((m.create config id now).2.count = m.count + 1) ∧
    (∀ other, other ≠ id → (m.create config id now).2.get other = m.get other) := by
  refine ⟨rfl, rfl, rfl, rfl, rfl, ?_, ?_, ?_⟩
  · show (m.sessions.set id (createSession id now config)).get id = _
    rw [JsMap.get_set, if_pos rfl]
    rfl
  · show (m.sessions.set id (createSession id now config)).size = m.sessions.size + 1
    exact JsMap.size_set_fresh m.sessions id _ hfresh
  · intro other hother
    show (m.sessions.set id (createSession id now config)).get other = m.sessions.get other
    rw [JsMap.get_set, if_neg hother]

/-- A config the `ServerConfigSchema` would reject: empty `name`. -/
def cfgEmptyName : ServerConfig := { name := "", transport := .stdio }

/-- Claim C1, counterexample: `create` on a config with an empty name
does not fail and does not refuse to store — it returns a `CREATED`
session and stores it (no `ValidationError` is raised anywhere in
`SessionManager.create`, which never consults the schema). -/
theorem create_accepts_empty_name :
    ((SessionManager.empty.create cfgEmptyName "id-0" 0).1.state
      = SessionState.CREATED) ∧
    ((SessionManager.empty.create cfgEmptyName "id-0" 0).2.count = 1) ∧
    ((SessionManager.empty.create cfgEmptyName "id-0" 0).2.get "id-0"
      = some (SessionManager.empty.create cfgEmptyName "id-0" 0).1) :=
  ⟨rfl, rfl, rfl⟩

/-- A well-formed config, as in the spec's concrete scenario. -/
def cfgValid : ServerConfig :=
  { name := "srv", transport := .stdio, command := some "node" }

/-- Claim C1, witness at a fresh id and a valid config. -/
theorem create_stores_every_config_witness :
    SessionManager.empty.get "id-1" = none ∧
    (SessionManager.empty.create cfgValid "id-1" 7).2.count
      = SessionManager.empty.count + 1 :=
  ⟨rfl, (create_stores_every_config SessionManager.empty cfgValid "id-1" 7
    rfl).2.2.2.2.2.2.1⟩

/-- One registry call together with its clock reading (`new Date()`). -/
inductive MOp where
  | create (config : ServerConfig) (id : String) (now : Int)
  | close (id : String) (now : Int)
  | updateState (id : String) (state : SessionState) (now : Int)
  | updateCapabilities (id : String) (cc sc : Option Caps) (now : Int)
  | deleteOp (id : String)

/-- The clock reading an operation uses, if any. -/
def MOp.time? : MOp → Option Int
  | .create _ _ now => some now
  | .close _ now => some now
  | .updateState _ _ now => some now
  | .updateCapabilities _ _ _ now => some now
  | .deleteOp _ => none

/-- Apply one registry call. -/
def applyOp (m : SessionManager) : MOp → SessionManager
  | .create config id now => (m.create config id now).2
  | .close id now => m.close id now
  | .updateState id state now => m.updateState id state now
  | .updateCapabilities id cc sc now => m.updateCapabilities id cc sc now
  | .deleteOp id => (m.delete id).2

/-- Apply a sequence of registry calls in order. -/
def applyOps (m : SessionManager) (ops : List MOp) : SessionManager :=
  ops.foldl applyOp m

/-- The clock readings in `ops` are nondecreasing starting at `t` — real
time does not run backwards between calls. -/
def timesOk : Int → List MOp → Bool
  | _, [] => true
  | t, op :: rest =>
    match op.time? with
    | some now => decide (t ≤ now) && timesOk now rest
    | none => timesOk t rest

/-- Every stored session satisfies `createdAt ≤ updatedAt ≤ t`. -/
def Bounded (m : SessionManager) (t : Int) : Prop :=
  ∀ id s, m.get id = some s → s.createdAt ≤ s.updatedAt ∧ s.updatedAt ≤ t

theorem Bounded.mono {m : SessionManager} {t t' : Int} (h : Bounded m t)
    (htt : t ≤ t') : Bounded m t' :=
  fun id s hs => ⟨(h id s hs).1, le_trans (h id s hs).2 htt⟩

theorem bounded_set (m : SessionManager) (t : Int) (id : String)
    (snew : Session) (hb : Bounded m t) (h1 : snew.createdAt ≤ snew.updatedAt)
    (h2 : snew.updatedAt ≤ t) :
    Bounded (⟨m.sessions.set id snew⟩ : SessionManager) t := by
  intro k s hs
  unfold SessionManager.get at hs
  rw [JsMap.get_set] at hs
  split at hs
  · cases hs
    exact ⟨h1, h2⟩
  · exact hb k s hs

theorem bounded_delete (m : SessionManager) (t : Int) (id : String)
    (hb : Bounded m t) :
    Bounded (⟨m.sessions.delete id⟩ : SessionManager) t := by
  intro k s hs
  unfold SessionManager.get at hs
  rw [JsMap.get_delete] at hs
  split at hs
  · cases hs
  · exact hb k s hs

theorem bounded_applyOp (m : SessionManager) (t now : Int) (op : MOp)
    (hb : Bounded m t) (ht : op.time? = some now) (htn : t ≤ now) :
    Bounded (applyOp m op) now := by
  cases op with
  | create config id nw =>
    injection ht with ht
    subst ht
    exact bounded_set m nw id _ (hb.mono htn) (le_refl _) (le_refl _)
  | close id nw =>
    injection ht with ht
    subst ht
    show Bounded (m.close id nw) nw
    unfold SessionManager.close
    cases hm : m.sessions.get id with
    | none => exact hb.mono htn
    | some s =>
      have hbs := hb id s hm
      exact bounded_set m nw id _ (hb.mono htn)
        (le_trans hbs.1 (le_trans hbs.2 htn)) (le_refl _)
  | updateState id state nw =>
    injection ht with ht
    subst ht
    show Bounded (m.updateState id state nw) nw
    unfold SessionManager.updateState
    cases hm : m.sessions.get id with
    | none => exact hb.mono htn
    | some s =>
      have hbs := hb id s hm
      exact bounded_set m nw id _ (hb.mono htn)
        (le_trans hbs.1 (le_trans hbs.2 htn)) (le_refl _)
  | updateCapabilities id cc sc nw =>
    injection ht with ht
    subst ht
    show Bounded (m.updateCapabilities id cc sc nw) nw
    unfold SessionManager.updateCapabilities
    cases hm : m.sessions.get id with
    | none => exact hb.mono htn
    | some s =>
      have hbs := hb id s hm
      have hcu : s.createdAt ≤ nw := le_trans hbs.1 (le_trans hbs.2 htn)
      cases cc <;> cases sc <;>
        exact bounded_set m nw id _ (hb.mono htn) hcu (le_refl _)
  | deleteOp id => cases ht

theorem bounded_applyOps (ops : List MOp) (m : SessionManager) (t : Int)
    (hb : Bounded m t) (hok : timesOk t ops = true) :
    ∃ t', Bounded (applyOps m ops) t' := by
  induction ops generalizing m t with
  | nil => exact ⟨t, hb⟩
  | cons op rest ih =>
    unfold timesOk at hok
    cases hop : op.time? with
    | some now =>
      rw [hop, Bool.and_eq_true, decide_eq_true_eq] at hok
      exact ih (applyOp m op) now
        (bounded_applyOp m t now op hb hop hok.1) hok.2
    | none =>
      rw [hop] at hok
      have hdel : Bounded (applyOp m op) t := by
        cases op with
        | deleteOp id => exact bounded_delete m t id hb
        | create config id nw => cases hop
        | close id nw => cases hop
        | updateState id state nw => cases hop
        | updateCapabilities id cc sc nw => cases hop
      exact ih (applyOp m op) t hdel hok

/-- Claim C7 (amended to the clock model): along any sequence of registry
calls with nondecreasing clock readings, every stored session satisfies
`updatedAt >= createdAt`; each of `close`, `updateState` and
`updateCapabilities` on an existing id stamps `updatedAt` with the call's
clock reading, which under the claim's "real elapsed time" premise
(`updatedAt < now`) is a strict increase; and on an unknown id each of
them returns the registry unchanged. -/
theorem updatedAt_monotonic :
    (∀ (t0 : Int) (ops : List MOp), timesOk t0 ops = true →
      ∀ id s, (applyOps SessionManager.empty ops).get id = some s →
        s.createdAt ≤ s.updatedAt) ∧
    (∀ (m : SessionManager) (id : String) (s : Session) (now : Int)
        (state : SessionState) (cc sc : Option Caps),
      m.get id = some s → s.updatedAt < now →
      (((m.close id now).get id).map Session.updatedAt = some now ∧
       ((m.updateState id state now).get id).map Session.updatedAt = some now ∧
       ((m.updateCapabilities id cc sc now).get id).map Session.updatedAt
         = some now)) ∧
    (∀ (m : SessionManager) (id : String) (now : Int) (state : SessionState)
        (cc sc : Option Caps),
      m.get id = none →
      (m.close id now = m ∧ m.updateState id state now = m ∧
       m.updateCapabilities id cc sc now = m)) := by
  refine ⟨?_, ?_, ?_⟩
  · intro t0 ops hok id s hget
    have hb0 : Bounded SessionManager.empty t0 := by
      intro k s' hs'
      cases hs'
    obtain ⟨t', hb⟩ := bounded_applyOps ops SessionManager.empty t0 hb0 hok
    exact (hb id s hget).1
  · intro m id s now state cc sc hget _
    unfold SessionManager.get at hget
    refine ⟨?_, ?_, ?_⟩
    · unfold SessionManager.close
      rw [hget]
      show ((m.sessions.set id _).get id).map Session.updatedAt = _
      rw [JsMap.get_set, if_pos rfl]
      rfl
    · unfold SessionManager.updateState
      rw [hget]
      show ((m.sessions.set id _).get id).map Session.updatedAt = _
      rw [JsMap.get_set, if_pos rfl]
      rfl
    · unfold SessionManager.updateCapabilities
      rw [hget]
      show ((m.sessions.set id _).get id).map Session.updatedAt = _
      rw [JsMap.get_set, if_pos rfl]
      cases cc <;> cases sc <;> rfl
  · intro m id now state cc sc hget
    unfold SessionManager.get at hget
    refine ⟨?_, ?_, ?_⟩
    · unfold SessionManager.close
      rw [hget]
    · unfold SessionManager.updateState
      rw [hget]
    · unfold SessionManager.updateCapabilities
      rw [hget]

/-- The trace used as a witness: create at time 0, close at time 5. -/
def c7ops : List MOp := [MOp.create cfgValid "a" 0, MOp.close "a" 5]

/-- The session that trace produces. -/
def c7session : Session :=
  { id := "a", state := .CLOSED, createdAt := 0, updatedAt := 5
    config := cfgValid, protocol := "mcp" }

/-- Claim C7, witness: the concrete two-step trace with elapsed time. -/
theorem updatedAt_monotonic_witness :
    c7session.createdAt ≤ c7session.updatedAt ∧
    (((SessionManager.empty.create cfgValid "a" 0).2.close "a" 5).get "a").map
      Session.updatedAt = some 5 ∧
    SessionManager.empty.close "x" 1 = SessionManager.empty := by
  refine ⟨?_, ?_, ?_⟩
  · exact updatedAt_monotonic.1 0 c7ops rfl "a" c7session rfl
  · exact (updatedAt_monotonic.2.1 (SessionManager.empty.create cfgValid "a" 0).2
      "a" (createSession "a" 0 cfgValid) 5 .ACTIVE none none rfl
      (by decide)).1
  · exact (updatedAt_monotonic.2.2 SessionManager.empty "x" 1 .ACTIVE
      none none rfl).1

/-! ## Pipeline claims (C4, C5, C9) -/

theorem toMw_apply {ε σ : Type} (h : SHandler σ) (s : σ)
    (next : σ → MwResult ε σ) :
    SHandler.toMw h s next =
      if h.callsNext = true then
        match next (h.before s) with
        | (Except.ok _, s₂) => (Except.ok (), h.after s₂)
        | (Except.error e, s₂) => (Except.error e, s₂)
      else (Except.ok (), h.before s) := rfl

/-- Claim C4: for every chain of structured handlers, running the
pipeline applies before-code in registration order on the way in and
after-code in reverse registration order on the way out (the reference
recursion `runChain`), resolving without error; concretely, the chain
`[h1, h2]` logs `before-1, before-2, after-2, after-1`; and a handler
that never invokes its continuation (here with an arbitrary tail of
middlewares after it) ends the run with only its own before-effects,
without error — no later handler can influence the result. -/
theorem pipeline_nesting_short_circuit :
    (∀ (ε σ : Type) (hs : List (SHandler σ)) (s : σ),
      (MiddlewarePipeline.mk (hs.map (fun h => (SHandler.toMw h : Mw ε σ)))).run s
        = (Except.ok (), runChain hs s)) ∧
    ((MiddlewarePipeline.mk
        (([⟨fun s => s ++ ["before-1"], true, fun s => s ++ ["after-1"]⟩,
           ⟨fun s => s ++ ["before-2"], true, fun s => s ++ ["after-2"]⟩] :
            List (SHandler (List String))).map
          (fun h => (SHandler.toMw h : Mw String (List String))))).run []
      = (Except.ok (), ["before-1", "before-2", "after-2", "after-1"])) ∧
    (∀ (ε σ : Type) (b a : σ → σ) (rest : List (Mw ε σ)) (s : σ),
      (MiddlewarePipeline.mk ((SHandler.toMw ⟨b, false, a⟩ : Mw ε σ) :: rest)).run s
        = (Except.ok (), b s)) := by
  refine ⟨?_, ?_, ?_⟩
  · intro ε σ hs s
    show compose (hs.map (fun h => (SHandler.toMw h : Mw ε σ))) s = _
    induction hs generalizing s with
    | nil => rfl
    | cons h rest ih =>
      show SHandler.toMw h s
          (compose (rest.map (fun h => (SHandler.toMw h : Mw ε σ)))) = _
      rw [toMw_apply]
      by_cases hc : h.callsNext = true
      · rw [if_pos hc, ih (h.before s)]
        simp [runChain, hc]
      · rw [if_neg hc]
        simp [runChain, hc]
  · rfl
  · intro ε σ b a rest s
    rfl

/-- Claim C5: when a handler throws after performing its own side
effects, with every earlier handler calling its continuation (and none
catching), the pipeline result is exactly the thrown error — unwrapped,
unretried, unswallowed — and the final state retains all the before-phase
effects of the earlier handlers plus the failing handler's own effects;
the handlers after the failing one, and the after-phases of the earlier
ones, never run. -/
theorem handler_error_propagates (ε σ : Type) (pre : List (SHandler σ))
    (f : σ → σ) (e : ε) (rest : List (Mw ε σ)) (s : σ)
    (hpre : pre.all (fun h => h.callsNext) = true) :
    (MiddlewarePipeline.mk
        ((pre.map (fun h => (SHandler.toMw h : Mw ε σ))) ++
          throwingMw f e :: rest)).run s
      = (Except.error e, f (pre.foldl (fun acc h => h.before acc) s)) := by
  revert hpre
  induction pre generalizing s with
  | nil =>
    intro _
    rfl
  | cons h hs ih =>
    intro hpre
    rw [List.all_cons, Bool.and_eq_true] at hpre
    show SHandler.toMw h s
        (compose ((hs.map (fun h => (SHandler.toMw h : Mw ε σ))) ++
          throwingMw f e :: rest)) = _
    rw [toMw_apply, if_pos hpre.1]
    have hrec : compose ((hs.map (fun h => (SHandler.toMw h : Mw ε σ))) ++
        throwingMw f e :: rest) (h.before s)
      = (Except.error e, f (hs.foldl (fun acc h => h.before acc) (h.before s))) :=
      ih (h.before s) hpre.2
    rw [hrec]
    rfl

/-- Claim C5, witness: one well-behaved handler, then a throwing one. -/
theorem handler_error_propagates_witness :
    (MiddlewarePipeline.mk
        ((([⟨fun s => s ++ ["w"], true, fun s => s ++ ["x"]⟩] :
            List (SHandler (List String))).map
          (fun h => (SHandler.toMw h : Mw String (List String)))) ++
          throwingMw (fun s => s ++ ["boom"]) "myError" :: [])).run []
      = (Except.error "myError", ["w", "boom"]) :=
  handler_error_propagates String (List String)
    [⟨fun s => s ++ ["w"], true, fun s => s ++ ["x"]⟩]
    (fun s => s ++ ["boom"]) "myError" [] [] rfl

/-- Claim C9: within one run, `Context.get` returns the most recently
`set` value for the key's token, else the key's declared default (absent
when the key has none — a fresh context answers the default for every
key); sets accumulate left to right across the run (so a set is visible
to every later lookup in the same run), and `process` builds a fresh
context for each call, so sets have no effect outside the run. -/
theorem context_get_set_semantics :
    (∀ (V : Type) (ctx : Context V) (sets : List (ContextKey V × V))
        (k : ContextKey V),
      (Context.applySets ctx sets).get k =
        match sets.reverse.find? (fun kv => decide (kv.1.id = k.id)) with
        | some kv => some kv.2
        | none => ctx.get k) ∧
    (∀ (V : Type) (event : MessageEvent) (session : Session) (k : ContextKey V),
      (Context.init event session : Context V).get k = k.defaultValue) ∧
    (∀ (V ε : Type) (p : MiddlewarePipeline ε (Context V))
        (event : MessageEvent) (session : Session),
      p.process event session = p.run (Context.init event session)) ∧
    (∀ (V : Type) (ctx : Context V) (s₁ s₂ : List (ContextKey V × V)),
      Context.applySets (Context.applySets ctx s₁) s₂
        = Context.applySets ctx (s₁ ++ s₂)) := by
  refine ⟨?_, ?_, ?_, ?_⟩
  · intro V ctx sets k
    induction sets generalizing ctx with
    | nil => rfl
    | cons kv rest ih =>
      show (Context.applySets (ctx.set kv.1 kv.2) rest).get k = _
      rw [ih, List.reverse_cons, List.find?_append]
      cases hf : rest.reverse.find? (fun kv => decide (kv.1.id = k.id)) with
      | some x => rfl
      | none =>
        show (ctx.set kv.1 kv.2).get k =
          match [kv].find? (fun kv => decide (kv.1.id = k.id)) with
          | some kv => some kv.2
          | none => ctx.get k
        unfold Context.set Context.get
        rw [JsMap.get_set, List.find?_singleton]
        by_cases hk : kv.1.id = k.id
        · rw [if_pos (by rw [hk]), if_pos (by simpa using hk)]
        · rw [if_neg (by simpa using fun h => hk h.symm),
            if_neg (by simpa using hk)]
  · intro V event session k
    rfl
  · intro V ε p event session
    rfl
  · intro V ctx s₁ s₂
    unfold Context.applySets
    rw [List.foldl_append]

/-! ## Event factory size (claim C8) -/

theorem jsLen_eq_utf8Len_of_ascii (s : String)
    (h : ∀ c ∈ s.data, c.toNat < 128) : jsStringLength s = utf8Length s := by
  unfold jsStringLength utf8Length
  suffices haux : ∀ (l : List Char), (∀ c ∈ l, c.toNat < 128) → ∀ n : Nat,
      l.foldl (fun n c => n + (if c.toNat < 65536 then 1 else 2)) n
        = l.foldl (fun n c => n + charUtf8Size c) n from haux s.data h 0
  intro l hl
  induction l with
  | nil => intro n; rfl
  | cons c cs ih =>
    intro n
    have hc : c.toNat < 128 := hl c (List.mem_cons_self _ _)
    rw [List.foldl_cons, List.foldl_cons,
      if_pos (by omega : c.toNat < 65536),
      show charUtf8Size c = 1 from by unfold charUtf8Size; rw [if_pos (by omega)]]
    exact ih (fun x hx => hl x (List.mem_cons_of_mem _ hx)) (n + 1)

/-- Claim C8 (amended): the event's `size` is the UTF-16 code-unit count
(JS `string.length`) of `JSON.stringify(payload)`; when the serialized
payload is ASCII-only this coincides with its byte length. -/
theorem size_utf16_units (sessionId : String) (direction : Direction)
    (payload : JsonRpcMessage) (protocol id : String) (now : Int) :
    (createMessageEvent sessionId direction payload protocol id now).size
      = some (jsStringLength (stringifyPayload payload)) ∧
    ((∀ c ∈ (stringifyPayload payload).data, c.toNat < 128) →
      (createMessageEvent sessionId direction payload protocol id now).size
        = some (utf8Length (stringifyPayload payload))) := by
  refine ⟨rfl, fun h => ?_⟩
  show some (jsStringLength (stringifyPayload payload)) = _
  rw [jsLen_eq_utf8Len_of_ascii _ h]

/-- A payload whose serialization contains a non-ASCII character. -/
def payloadAccent : JsonRpcMessage := .notify "é" none

/-- Claim C8, counterexample: for the payload `{jsonrpc:"2.0",
method:"é"}` the stored `size` (UTF-16 code units) differs from the byte
length of the serialized payload (the accented letter occupies one
code unit but two bytes). -/
theorem size_not_byte_length :
    (createMessageEvent "s" Direction.outbound payloadAccent "mcp" "m1" 0).size
      ≠ some (utf8Length (stringifyPayload payloadAccent)) := by
  decide

/-- An all-ASCII payload. -/
def payloadAscii : JsonRpcMessage := .request (.num 1) "tools/list" none

/-- Claim C8, witness: on an ASCII payload the size equals the byte
length. -/
theorem size_utf16_units_witness :
    (∀ c ∈ (stringifyPayload payloadAscii).data, c.toNat < 128) ∧
    (createMessageEvent "s" Direction.outbound payloadAscii "mcp" "m2" 0).size
      = some (utf8Length (stringifyPayload payloadAscii)) :=
  ⟨by decide, (size_utf16_units "s" Direction.outbound payloadAscii "mcp"
    "m2" 0).2 (by decide)⟩

/-- Concrete event stored under the pair `("s", 1)` with a numeric id. -/
def c10ev : MessageEvent :=
  { id := "w", sessionId := "s", timestamp := 0, direction := .outbound
    payload := .request (.num 1) "m" none
    method := some "m", requestId := some (.num 1) }

/-- Claim C10, witness: the numeric request id `1` and the string `"1"`
render to the same key, so a store under the numeric pair is visible
through the string pair. -/
theorem request_key_collisions_witness :
    MessageStore.makeRequestKey "s" (RId.str "1")
      = MessageStore.makeRequestKey "s" (RId.num 1) ∧
    (MessageStore.empty.store c10ev).getByRequestId "s" (RId.str "1")
      = some c10ev :=
  ⟨by decide, (request_key_collisions MessageStore.empty "s" "s" (RId.str "1")
    (RId.num 1) (by decide)).2.1 c10ev rfl rfl⟩

end Say2
